import Mathlib

/-!
Shallow embedding of `src/node_modules/nano-node/index.js`, the protocol
engine of this repository: the block/message codecs, the peer directory
and the TCP chain-reassembly loop, together with proofs about them.

Modelling conventions, fixed once for the whole file:

* JavaScript `Buffer`s are modeled as `List Nat`, each element a byte value.
* Hex strings that merely transport byte values in the JavaScript API
  (block field values, signatures, work, hashes) are modeled as the byte
  lists they decode to: `Buffer.from(s, 'hex')` and `buf.toString('hex')`
  are mutually inverse between byte buffers and (lower-case) even-length
  hex strings, so nothing is lost.  Strings whose *text* the code inspects
  (peer addresses, the `bulk_pull` account argument) are modeled as `String`.
* A JavaScript function that can `throw` is modeled as `Except JsError ·`.
  `ParseError(msg)` keeps its message string; a `TypeError`, `RangeError`
  or `ReferenceError` raised by the runtime is modeled by the matching
  constructor.
-/

namespace Nano

abbrev Bytes := List Nat

/-- `Buffer.prototype.slice(s, e)` (for the in-range, non-negative uses the
source makes): bytes from index `s` (inclusive) to `e` (exclusive),
truncated at the end of the buffer. -/
def slice (buf : Bytes) (s e : Nat) : Bytes := (buf.drop s).take (e - s)

/-- `buf.readUInt16LE(o)`.  Out-of-range reads would raise a `RangeError` in
Node; every call site in the source is bounds-checked beforehand (or modeled
by an explicit length test in `parseMessage`), so the pure total version
suffices here. -/
def readUInt16LE (buf : Bytes) (o : Nat) : Nat := buf.getD o 0 + 256 * buf.getD (o + 1) 0

/-- `buf.readUInt16BE(o)`; same remark as `readUInt16LE`. -/
def readUInt16BE (buf : Bytes) (o : Nat) : Nat := 256 * buf.getD o 0 + buf.getD (o + 1) 0

/-- `buf.writeUInt16BE(v, pos)` / `writeInt16BE` for the non-negative values
the source writes (0‥32767). -/
def writeU16BE (buf : Bytes) (pos v : Nat) : Bytes :=
  (buf.set pos (v / 256 % 256)).set (pos + 1) (v % 256)

/-- `buf.writeUInt16LE(v, pos)` for `v ≤ 0xffff`. -/
def writeU16LE (buf : Bytes) (pos v : Nat) : Bytes :=
  (buf.set pos (v % 256)).set (pos + 1) (v / 256 % 256)

/-- `const IPV4MASK = Buffer.from('00000000000000000000ffff', 'hex')`. -/
def IPV4MASK : Bytes := List.replicate 10 0 ++ [255, 255]

/-- `const BULK_PULL_PREFIX = Buffer.from('52430505010300', 'hex')`. -/
def BULK_PULL_PREFIX : Bytes := [0x52, 0x43, 0x05, 0x05, 0x01, 0x03, 0x00]

/-- `const DEFAULT_FRONTIER_REQ = Buffer.concat([Buffer.alloc(32),
Buffer.from('ffffffff', 'hex')])`. -/
def DEFAULT_FRONTIER_REQ : Bytes := List.replicate 32 0 ++ [255, 255, 255, 255]

/-- `const MESSAGE_TYPES = [...]`. -/
def MESSAGE_TYPES : List String :=
  ["invalid", "not_a_type", "keepalive", "publish", "confirm_req",
   "confirm_ack", "bulk_pull", "bulk_push", "frontier_req"]

/-- `const BLOCK_TYPES = { invalid: 0x00, ..., state: 0x06 }`, as an
association list preserving declaration order. -/
def BLOCK_TYPES : List (String × Nat) :=
  [("invalid", 0), ("not_a_block", 1), ("send", 2), ("receive", 3),
   ("open", 4), ("change", 5), ("state", 6)]

/-- `const BLOCK_TYPES_INDEX = [...]`. -/
def BLOCK_TYPES_INDEX : List String :=
  ["invalid", "not_a_block", "send", "receive", "open", "change", "state"]

/-- `const BLOCK_LENGTHS = [0, 0, 80, 64, 96, 64, 144]`. -/
def BLOCK_LENGTHS : List Nat := [0, 0, 80, 64, 96, 64, 144]

/-- One entry of `REQUIRED_FIELDS`: allowed block-type codes and byte length. -/
structure FieldSpec where
  name : String
  types : List Nat
  length : Nat
deriving Repr, DecidableEq

/-- `const REQUIRED_FIELDS = {...}`, in declaration (= hashing) order. -/
def REQUIRED_FIELDS : List FieldSpec :=
  [⟨"previous", [2, 3, 5, 6], 32⟩,
   ⟨"destination", [2], 32⟩,
   ⟨"balance", [2, 6], 16⟩,
   ⟨"source", [3, 4], 32⟩,
   ⟨"representative", [4, 5, 6], 32⟩,
   ⟨"account", [4, 6], 32⟩,
   ⟨"link", [6], 32⟩]

/-- `const SPECIAL_ORDERING = { state: [...] }`. -/
def SPECIAL_ORDERING : List (String × List String) :=
  [("state", ["account", "previous", "representative", "balance", "link"])]

/-- `const BIG_ENDIAN_WORK = [ 'state' ]`. -/
def BIG_ENDIAN_WORK : List String := ["state"]

/-- `BLOCK_TYPES[t]` as an optional lookup (`undefined` ↦ `none`). -/
def blockTypeCode (t : String) : Option Nat :=
  (BLOCK_TYPES.find? (fun p => p.1 == t)).map (fun p => p.2)

/-- `REQUIRED_FIELDS[name].length`; only ever called with declared names. -/
def fieldLength (name : String) : Nat :=
  match REQUIRED_FIELDS.find? (fun f => f.name == name) with
  | some f => f.length
  | none => 0

/-- `function blockFields(blockType)` (source lines 371–379). -/
def blockFields (blockType : String) : List String :=
  match SPECIAL_ORDERING.find? (fun p => p.1 == blockType) with
  | some p => p.2
  | none =>
    (REQUIRED_FIELDS.filter (fun f =>
      match blockTypeCode blockType with
      | some c => f.types.contains c
      | none => false)).map (fun f => f.name)

/-- Errors a codec call can raise.  `parseError s` is `new ParseError(s)`;
the other constructors model errors raised by the JavaScript runtime
itself. -/
inductive JsError where
  | parseError (msg : String)
  | typeError
  | rangeError
  | referenceError (name : String)
deriving Repr, DecidableEq

/-- Hex digit value of a character, `none` when not a hex digit. -/
def hexVal (c : Char) : Option Nat :=
  if '0' ≤ c ∧ c ≤ '9' then some (c.toNat - 48)
  else if 'a' ≤ c ∧ c ≤ 'f' then some (c.toNat - 87)
  else if 'A' ≤ c ∧ c ≤ 'F' then some (c.toNat - 55)
  else none

/-- `Buffer.from(s, 'hex')`: decodes pairs of hex digits, stopping at the
first pair containing a non-hex character (Node semantics). -/
def bufferFromHex : List Char → Bytes
  | c1 :: c2 :: rest =>
    match hexVal c1, hexVal c2 with
    | some h, some l => (16 * h + l) :: bufferFromHex rest
    | _, _ => []
  | _ => []

/-- One character of `HEX64CHAR_PATTERN = /^[A-F-a-f0-9]{64}$/`.
Note that the character class `[A-F-a-f0-9]` consists of the ranges `A-F`,
`a-f`, `0-9` *and the literal* `'-'`: after the complete range `A-F` the
following dash cannot start a range, so ECMAScript parses it as a literal
class member. -/
def hex64Char (c : Char) : Bool :=
  ('A' ≤ c && c ≤ 'F') || c == '-' || ('a' ≤ c && c ≤ 'f') || ('0' ≤ c && c ≤ '9')

/-- `HEX64CHAR_PATTERN.test(s)`. -/
def hex64Test (s : String) : Bool :=
  s.toList.length == 64 && s.toList.all hex64Char

/-- `n.toString(16)`: lower-case hex, no padding. -/
def natToHex (n : Nat) : String := String.mk (Nat.toDigits 16 n)

/-- Decimal digit test for `parseInt(·, 10)` and the IPv6-literal pattern. -/
def isDigit10 (c : Char) : Bool := '0' ≤ c && c ≤ '9'

/-- `parseInt(s, 10)` for the strings this code feeds it (address
components): value of the leading run of decimal digits, `none` (= `NaN`)
when there is none.  (`parseInt`'s whitespace/sign/hex-literal handling is
never exercised by address splitting.) -/
def parseInt10 (s : String) : Option Nat :=
  let ds := s.toList.takeWhile isDigit10
  if ds.isEmpty then none
  else some (ds.foldl (fun a c => a * 10 + (c.toNat - 48)) 0)

/-- `IPV6_PATTERN = /^\[[A-Fa-f0-9:]+\]:[0-9]+$/`.  The class excludes `]`,
so the first `]` necessarily ends the bracketed part: the test is
deterministic without backtracking. -/
def ipv6Test (s : String) : Bool :=
  match s.toList with
  | '[' :: rest =>
    let inner := rest.takeWhile (fun c => c != ']')
    let after := rest.drop inner.length
    (!inner.isEmpty) &&
    inner.all (fun c => ('A' ≤ c && c ≤ 'F') || ('a' ≤ c && c ≤ 'f') ||
                        ('0' ≤ c && c ≤ '9') || c == ':') &&
    (match after with
     | ']' :: ':' :: ds => (!ds.isEmpty) && ds.all isDigit10
     | _ => false)
  | _ => false

/-- `String.prototype.split(/[\.:]/)` on the character level: split at every
`'.'` or `':'`, keeping empty components (JavaScript behavior). -/
def splitChars (p : Char → Bool) : List Char → List (List Char)
  | [] => [[]]
  | c :: rest =>
    let r := splitChars p rest
    if p c then [] :: r
    else
      match r with
      | g :: gs => (c :: g) :: gs
      | [] => [[c]]

/-- `address.split(/[\.:]/)`. -/
def splitDC (s : String) : List String :=
  (splitChars (fun c => c == '.' || c == ':') s.toList).map (fun l => String.mk l)

/-- Modelled from the spec: the vendored `./blake2b` module is not present
under `src/`; the spec says only that the hash is “the cryptographic digest
(32-byte, variable-length-hash-capable function configured for 32 bytes)
over the concatenation of its ordered fields”.  We model it as a
deterministic executable function returning 32 bytes; every hash claim in
this file depends only on determinism over the input bytes. -/
def blake2b (input : Bytes) : Bytes :=
  let seed := input.foldl (fun acc b => (acc * 33 + b + 1) % 4294967296) 5381
  (List.range 32).map (fun i => (seed / (i + 1) + seed * (i + 7) + i) % 256)

/-- Modelled from the spec: the vendored `./nacl` module is not present under
`src/`; the spec says a missing signature is produced “by signing the hash”
with the 32-byte key.  Deterministic executable 64-byte stand-in; no claim
in this file exercises this path. -/
def naclSign (msg key : Bytes) : Bytes :=
  (List.range 64).map (fun i =>
    ((msg.foldl (fun a b => a + b) 0) * 31 + (key.foldl (fun a b => a + b) 0) * 7 + i) % 256)

/-- A block object as supplied to `renderMessage` (`msg.body` for `publish` /
`confirm_req`): a JavaScript object whose properties may be absent.  Field
values, signature and work are byte lists (see the hex convention above). -/
structure BlockObj where
  type : Option String := none
  previous : Option Bytes := none
  destination : Option Bytes := none
  balance : Option Bytes := none
  source : Option Bytes := none
  representative : Option Bytes := none
  account : Option Bytes := none
  link : Option Bytes := none
  signature : Option Bytes := none
  work : Option Bytes := none

/-- The dynamically-typed `msg.body` argument of `renderMessage`, split by
the shapes the source distinguishes (`instanceof Buffer`, block object,
`instanceof Array`, string, absent). -/
inductive BodyVal where
  | missing
  | buffer (bytes : Bytes)
  | block (b : BlockObj)
  | array (addrs : List String)
  | str (s : String)

end Nano

namespace Nano

/-- `field in msg.body` / `msg.body[field]` for the seven declared field
names. -/
def BlockObj.field (b : BlockObj) : String → Option Bytes
  | "previous" => b.previous
  | "destination" => b.destination
  | "balance" => b.balance
  | "source" => b.source
  | "representative" => b.representative
  | "account" => b.account
  | "link" => b.link
  | _ => none

/-- The `msg` argument of `renderMessage`: optional properties model
`'prop' in msg` checks. -/
structure MsgObj where
  type : String
  mainnet : Option Bool := none
  versionMax : Option Nat := none
  versionUsing : Option Nat := none
  versionMin : Option Nat := none
  extensions : Option Nat := none
  body : BodyVal := .missing

/-- Return value of `renderMessage`: `message` is `undefined` (`none`) when
no body branch matched; `hash` is the block hash (a hex string in
JavaScript, the digest bytes here) or `null`. -/
structure RenderResult where
  message : Option Bytes
  hash : Option Bytes
deriving Repr, DecidableEq

/-- JavaScript truthiness of the body argument (`msg.body && ...`). -/
def bodyTruthy : BodyVal → Bool
  | .missing => false
  | .buffer _ => true
  | .block _ => true
  | .array _ => true
  | .str s => s ≠ ""

/-- The per-field loop `fields.map(field => ...)` of the `publish` /
`confirm_req` branch of `renderMessage`: missing property ↦
`missing_field_*`, wrong decoded length ↦ `length_mismatch_*`. -/
def getValues (b : BlockObj) : List String → Except JsError (List Bytes)
  | [] => .ok []
  | f :: rest =>
    match b.field f with
    | none => .error (.parseError ("missing_field_" ++ f))
    | some v =>
      if v.length ≠ fieldLength f then .error (.parseError ("length_mismatch_" ++ f))
      else (getValues b rest).map (fun vs => v :: vs)

/-- `if(BIG_ENDIAN_WORK.indexOf(type) === -1) work = work.reverse()`. -/
def wireWork (t : String) (w : Bytes) : Bytes :=
  if (BIG_ENDIAN_WORK.findIdx? (fun x => x == t)).isNone then w.reverse else w

/-- The `forEach` over the five components of one keepalive peer address
(`parts.forEach((val, i) => ...)`); `i = 4` is the 2-byte little-endian
port (`writeUInt16LE` range-checks its value), the others are single
byte assignments (which coerce modulo 256). -/
def writeParts (index : Nat) : Bytes → List String → Nat → Except JsError Bytes
  | buf, [], _ => .ok buf
  | buf, p :: rest, i =>
    match parseInt10 p with
    | none => .error (.parseError "invalid_address")
    | some val =>
      let pos := 8 + 16 * index + 12 + i
      if i == 4 then
        if val > 65535 then .error .rangeError
        else writeParts index (writeU16LE buf pos val) rest (i + 1)
      else
        writeParts index (buf.set pos (val % 256)) rest (i + 1)

/-- One iteration of `msg.body.forEach((address, index) => ...)` in the
keepalive branch of `renderMessage` (source lines 321–348).  Note the
source packs entry `index` at byte offset `8 + 16*index`, a 16-byte stride. -/
def writeKeepalivePeer (buf : Bytes) (index : Nat) (address : String) : Except JsError Bytes :=
  if ipv6Test address then .error (.parseError "ipv6_not_supported")
  else
    let parts := splitDC address
    if parts.length ≠ 5 then .error (.parseError "invalid_address")
    else
      writeParts index
        ((buf.set (8 + 16 * index + 10) 255).set (8 + 16 * index + 11) 255)
        parts 0

/-- The whole keepalive peer loop. -/
def writePeers : Bytes → List String → Nat → Except JsError Bytes
  | buf, [], _ => .ok buf
  | buf, a :: rest, idx =>
    match writeKeepalivePeer buf idx a with
    | .error e => .error e
    | .ok buf' => writePeers buf' rest (idx + 1)

/-- The `publish` / `confirm_req` block body branch of `renderMessage`
(source lines 276–315).  `header` is the 8-byte header already built. -/
def renderBlockBody (header : Bytes) (b : BlockObj) (accountKey : Option Bytes) :
    Except JsError RenderResult :=
  match b.type with
  | none => .error (.parseError "invalid_block_type")
  | some t =>
    if (blockTypeCode t).isNone then .error (.parseError "invalid_block_type")
    else
      -- Update extension value in header; membership in BLOCK_TYPES was just
      -- checked and BLOCK_TYPES_INDEX lists the same seven names, so the
      -- index exists.
      let header := writeU16BE header 6 ((BLOCK_TYPES_INDEX.findIdx? (fun x => x == t)).getD 0)
      match getValues b (blockFields t) with
      | .error e => .error e
      | .ok values =>
        let hash := blake2b values.flatten
        let sigResult : Except JsError (Option Bytes) :=
          match b.signature with
          | some s => .ok (some s)
          | none =>
            match accountKey with
            | some key =>
              if key.length ≠ 32 then .error (.parseError "length_mismatch_private_key")
              else .ok (some (naclSign hash key))
            | none => .ok none
        match sigResult with
        | .error e => .error e
        | .ok sigOpt =>
          match b.work with
          | none => .error .typeError -- Buffer.from(undefined, 'hex') raises TypeError
          | some w0 =>
            let work := wireWork t w0
            if work.length ≠ 8 then .error (.parseError "length_mismatch_work")
            else
              match sigOpt with
              | none =>
                -- Buffer.concat([header, ...values, signature, work]) with
                -- signature === undefined raises a TypeError.
                .error .typeError
              | some s => .ok ⟨some (header ++ values.flatten ++ s ++ work), some hash⟩

/-- `NanoNode.renderMessage` (source lines 251–369). -/
def renderMessage (msg : MsgObj) (accountKey : Option Bytes) : Except JsError RenderResult :=
  match MESSAGE_TYPES.findIdx? (fun x => x == msg.type) with
  | none => .error (.parseError "invalid_type")
  | some idx =>
    let header0 : Bytes :=
      [0x52,
       (match msg.mainnet with | none => 0x43 | some true => 0x43 | some false => 0x41),
       msg.versionMax.getD 0x07 % 256,
       msg.versionUsing.getD 0x07 % 256,
       msg.versionMin.getD 0x01 % 256,
       idx % 256, 0x00, 0x00]
    let headerResult : Except JsError Bytes :=
      match msg.extensions with
      | some e => if e ≥ 32768 then .error .rangeError else .ok (writeU16BE header0 6 e)
      | none => .ok header0
    match headerResult with
    | .error e => .error e
    | .ok header =>
      match msg.body with
      | .buffer bs => .ok ⟨some (header ++ bs), none⟩
      | body =>
        if bodyTruthy body && (msg.type == "publish" || msg.type == "confirm_req") then
          match body with
          | .block b => renderBlockBody header b accountKey
          | .array _ =>
            -- `'type' in msg.body` is false for an array body
            .error (.parseError "invalid_block_type")
          | .str _ =>
            -- `'type' in msg.body` on a string primitive raises a TypeError
            .error .typeError
          | _ => .ok ⟨none, none⟩ -- unreachable: a missing body is not truthy, buffer matched above
        else if msg.type == "keepalive" then
          let m0 := header ++ List.replicate 144 0
          match body with
          | .array addrs =>
            if addrs.length > 8 then .error (.parseError "too_many_peers")
            else
              match writePeers m0 addrs 0 with
              | .error e => .error e
              | .ok m => .ok ⟨some m, none⟩
          | _ => .ok ⟨some m0, none⟩
        else if msg.type == "frontier_req" then
          -- Source line 352: `message = DEFAULT_FRONTIER_REQ;` — the header
          -- built above is not prepended.
          .ok ⟨some DEFAULT_FRONTIER_REQ, none⟩
        else if bodyTruthy body && msg.type == "bulk_pull" then
          match body with
          | .str s =>
            if hex64Test s then
              .ok ⟨some (header ++ bufferFromHex s.toList ++ bufferFromHex s.toList), none⟩
            else .error (.parseError "invalid_account")
          | _ => .error (.parseError "invalid_account") -- typeof msg.body !== 'string'
        else .ok ⟨none, none⟩

/-- Longest run of leading `"0"` groups. -/
def countZeros : List String → Nat
  | [] => 0
  | g :: rest => if g == "0" then countZeros rest + 1 else 0

/-- Leftmost maximal run of at least two consecutive `"0"` groups: returns
the groups before and after it. -/
def findZeroRun : List String → Option (List String × List String)
  | [] => none
  | g :: rest =>
    if g == "0" && decide (1 ≤ countZeros rest) then
      some ([], rest.drop (countZeros rest))
    else
      (findZeroRun rest).map (fun p => (g :: p.1, p.2))

/-- The IPv6 textual form produced by `parseIp`'s buffer branch: it joins the
eight hex groups with `':'` and then applies
`.replace(/(^|:)0(:0)*:0(:|$)/, '$1::$3').replace(/:{3,4}/, '::')`.
On colon-joined non-empty hex groups (no group contains a colon, no group
has leading zeros) the first replace rewrites the leftmost maximal run of
at least two zero groups, leaving 2–4 consecutive colons at the junction,
and the second normalizes that junction to `::`; the net effect is
`join(before) ++ "::" ++ join(after)`. -/
def formatIpv6 (gs : List String) : String :=
  match findZeroRun gs with
  | none => String.intercalate ":" gs
  | some p => String.intercalate ":" p.1 ++ "::" ++ String.intercalate ":" p.2

/-- `function parseIp(buf, offset)` for the buffer overload (source lines
381–398). -/
def parseIpBuf (buf : Bytes) (offset : Nat) : String :=
  if slice buf offset (offset + 12) = IPV4MASK then
    String.intercalate "." ((List.range 4).map (fun i => toString (buf.getD (offset + 12 + i) 0)))
      ++ ":" ++ toString (readUInt16LE buf (offset + 16))
  else
    "[" ++ formatIpv6 ((List.range 8).map (fun i => natToHex (readUInt16BE buf (offset + 2 * i))))
      ++ "]:" ++ toString (readUInt16LE buf (offset + 16))

/-- The keepalive peer-slot loop of `parseMessage`: slots at offsets
`8, 26, …, 134` (18-byte stride), skipping the `'[::]:0'` sentinel. -/
def keepalivePeers (buf : Bytes) : List String :=
  ((List.range 8).map (fun k => parseIpBuf buf (8 + 18 * k))).filter
    (fun peer => peer ≠ "[::]:0")

/-- A parsed transaction block (`message.body` for `publish`/`confirm_req`).
`fields` keeps the sliced values in parse order. -/
structure ParsedBlock where
  type : String
  fields : List (String × Bytes)
  hash : Bytes
  signature : Bytes
  work : Bytes
deriving Repr, DecidableEq

/-- `message.body` after parsing, by message type. -/
inductive ParsedBody where
  | raw (bytes : Bytes)
  | peers (ps : List String)
  | block (b : ParsedBlock)
deriving Repr, DecidableEq

/-- The object `parseMessage` returns. -/
structure ParsedMsg where
  mainnet : Bool
  versionMax : Nat
  versionUsing : Nat
  versionMin : Nat
  type : String
  extensions : Nat
  account : Option Bytes := none
  body : ParsedBody
deriving Repr, DecidableEq

/-- The field-slicing loop of the `publish`/`confirm_req` branch:
`block[fields[i]] = buf.slice(pos, pos+length)`, returning the collected
fields and the final `pos`. -/
def parseFields (buf : Bytes) : List String → Nat → (List (String × Bytes) × Nat)
  | [], pos => ([], pos)
  | f :: rest, pos =>
    let len := fieldLength f
    let v := slice buf pos (pos + len)
    let r := parseFields buf rest (pos + len)
    ((f, v) :: r.1, r.2)

/-- `NanoNode.parseMessage` (source lines 461–562). -/
def parseMessage (buf : Bytes) (minimalConfirmAck : Bool) : Except JsError ParsedMsg :=
  if buf.getD 0 0 ≠ 0x52 then .error (.parseError "magic_number")
  else if h41 : buf.getD 1 0 ≠ 0x43 ∧ buf.getD 1 0 ≠ 0x41 then .error (.parseError "invalid_network")
  else
    let mainnet := buf.getD 1 0 == 0x43
    let versionMax := buf.getD 2 0
    let versionUsing := buf.getD 3 0
    let versionMin := buf.getD 4 0
    if buf.getD 5 0 ≥ MESSAGE_TYPES.length then .error (.parseError "invalid_type")
    else if buf.length < 8 then .error .rangeError -- readUInt16BE(6) out of range
    else
      let type := MESSAGE_TYPES.getD (buf.getD 5 0) "invalid"
      let extensions := readUInt16BE buf 6
      if type == "keepalive" then
        if buf.length ≠ 152 then .error (.parseError "invalid_block_length")
        else .ok ⟨mainnet, versionMax, versionUsing, versionMin, type, extensions,
                  none, .peers (keepalivePeers buf)⟩
      else if type == "publish" || type == "confirm_req" then
        match BLOCK_TYPES_INDEX.get? extensions with
        | none => .error (.parseError "invalid_block_type")
        | some btype =>
          let r := parseFields buf (blockFields btype) 8
          if buf.length ≠ r.2 + 72 then .error (.parseError "invalid_block_length")
          else
            let hash := blake2b (slice buf 8 r.2)
            let sg := slice buf r.2 (r.2 + 64)
            let work0 := slice buf (r.2 + 64) (r.2 + 72)
            let work := if (BIG_ENDIAN_WORK.findIdx? (fun x => x == btype)).isNone
                        then work0.reverse else work0
            .ok ⟨mainnet, versionMax, versionUsing, versionMin, type, extensions,
                 none, .block ⟨btype, r.1, hash, sg, work⟩⟩
      else if type == "confirm_ack" then
        let account := slice buf 8 40
        if minimalConfirmAck then
          .ok ⟨mainnet, versionMax, versionUsing, versionMin, type, extensions,
               some account, .raw (slice buf 8 buf.length)⟩
        else
          -- Source line 546 calls the bare identifier `parseMessage`, which is
          -- bound nowhere (the function expression assigned to
          -- `NanoNode.parseMessage` is anonymous and the module defines no
          -- standalone `parseMessage`), so JavaScript raises a ReferenceError
          -- before any block parsing or signature verification can happen.
          .error (.referenceError "parseMessage")
      else
        .ok ⟨mainnet, versionMax, versionUsing, versionMin, type, extensions,
             none, .raw (slice buf 8 buf.length)⟩

/-- One step state of `NanoNode.parseChain`'s while loop: `remaining` is
`some bytes` or `none` for the JavaScript `null` end-of-stream marker. -/
def parseChainGo (buf : Bytes) (offset : Nat) (remaining : Option Bytes)
    (output : List ParsedBody) : Except JsError (List ParsedBody × Option Bytes) :=
  if h : offset < buf.length then
    let blockType := buf.getD offset 0
    if hbt : blockType < BLOCK_LENGTHS.length then
      let blockLen := BLOCK_LENGTHS.getD blockType 0 + 1
      if blockType = 1 then
        -- not_a_block: remaining = null, offset += blockLen
        parseChainGo buf (offset + blockLen) none output
      else
        let blockLen := blockLen + 64 + 8
        if buf.length < offset + blockLen then
          parseChainGo buf (offset + blockLen) (some (slice buf offset buf.length)) output
        else
          match parseMessage (BULK_PULL_PREFIX ++ slice buf offset (offset + blockLen)) false with
          | .error e => .error e
          | .ok m => parseChainGo buf (offset + blockLen) remaining (output ++ [m.body])
    else
      -- BLOCK_LENGTHS[blockType] is undefined: blockLen becomes NaN, the
      -- partial-block comparison is false, the slice is empty, and
      -- parseMessage(BULK_PULL_PREFIX) raises a RangeError reading the
      -- 16-bit extension field of a 7-byte buffer.
      match parseMessage BULK_PULL_PREFIX false with
      | .error e => .error e
      | .ok m => .ok (output ++ [m.body], remaining)
  else .ok (output, remaining)
termination_by buf.length - offset
decreasing_by
  · simp only [BLOCK_LENGTHS]
    omega
  · omega
  · omega

/-- `NanoNode.parseChain` (source lines 433–459). -/
def parseChain (buf : Bytes) : Except JsError (List ParsedBody × Option Bytes) :=
  parseChainGo buf 0 (some []) []

/-- The per-`data`-event accumulation loop of `fetchAccount` (source lines
209–221): concatenate the retained remainder with the new chunk, run
`parseChain`, collect blocks; a `null` remainder ends the stream. -/
def feedChunks : List Bytes → Bytes → Except JsError (List ParsedBody × Bytes)
  | [], remaining => .ok ([], remaining)
  | c :: cs, remaining =>
    match parseChain (remaining ++ c) with
    | .error e => .error e
    | .ok (bs, some rem) =>
      match feedChunks cs rem with
      | .error e => .error e
      | .ok (bs', rem') => .ok (bs ++ bs', rem')
    | .ok (bs, none) => .ok (bs, [])

/-- The peer-list update performed for every successfully parsed datagram
(source lines 126–133): remove the address if present, insert at the front,
pop the last entry when the length exceeds `maxPeers`. -/
def observe (peers : List String) (maxPeers : Nat) (address : String) : List String :=
  let removed := peers.erase address
  let fronted := address :: removed
  if maxPeers < fronted.length then fronted.dropLast else fronted

end Nano

namespace Nano

/-! ### Claim-level helper definitions -/

/-- A `publish` message wrapping a block body, all other properties absent. -/
def publishMsg (b : BlockObj) : MsgObj := { type := "publish", body := .block b }

/-- Association-list lookup used to build block objects for the round-trip
statements. -/
def lookupField (fs : List (String × Bytes)) (n : String) : Option Bytes :=
  (fs.find? (fun p => p.1 == n)).map (fun p => p.2)

/-- Block object whose required fields are `(blockFields t).zip vals`, with
an explicit signature and work. -/
def mkBlock (t : String) (vals : List Bytes) (sig w : Bytes) : BlockObj :=
  let fs := (blockFields t).zip vals
  { type := some t
    previous := lookupField fs "previous"
    destination := lookupField fs "destination"
    balance := lookupField fs "balance"
    source := lookupField fs "source"
    representative := lookupField fs "representative"
    account := lookupField fs "account"
    link := lookupField fs "link"
    signature := some sig
    work := some w }

/-- Render a keepalive for `addrs` and parse the resulting datagram back,
returning the decoded peer list. -/
def keepaliveRoundTrip (addrs : List String) : Except JsError (List String) :=
  match renderMessage { type := "keepalive", body := .array addrs } none with
  | .error e => .error e
  | .ok r =>
    match r.message with
    | none => .error (.parseError "no_message")
    | some bs =>
      match parseMessage bs false with
      | .error e => .error e
      | .ok m =>
        match m.body with
        | .peers ps => .ok ps
        | _ => .error (.parseError "no_peers")

/-- Last `n` bytes of a buffer (used to look at the wire work field). -/
def lastN (l : Bytes) (n : Nat) : Bytes := l.drop (l.length - n)

/-- The work field of a parsed `publish` body, if any. -/
def parsedWork (m : ParsedMsg) : Option Bytes :=
  match m.body with
  | .block b => some b.work
  | _ => none

/-- Zero-valued field list for a variant (for statements that quantify only
over the work bytes). -/
def zeroVals (t : String) : List Bytes :=
  (blockFields t).map (fun n => List.replicate (fieldLength n) 0)

/-- Block with all fields zero, a zero signature, and the given work. -/
def zeroBlock (t : String) (w : Bytes) : BlockObj :=
  mkBlock t (zeroVals t) (List.replicate 64 0) w

end Nano

deriving instance DecidableEq for Except

namespace Nano

/-- Wire bytes of a `publish`-framed block message: header with the given
version bytes and block-type extension value, then field values, signature
and wire-order work. -/
def pubBytesV (v2 v3 v4 c : Nat) (vals : List Bytes) (sig wire : Bytes) : Bytes :=
  ([0x52, 0x43, v2, v3, v4, 3, 0, c] : Bytes) ++ vals.flatten ++ sig ++ wire

/-- Wire bytes of a rendered `publish` message (default versions 7/7/1). -/
def pubBytes (c : Nat) (vals : List Bytes) (sig wire : Bytes) : Bytes :=
  pubBytesV 7 7 1 c vals sig wire

/-- The numeric code of a block variant (`BLOCK_TYPES[t]` for declared `t`). -/
def variantCode (t : String) : Nat := (blockTypeCode t).getD 0

/-- The seven declared field names of `REQUIRED_FIELDS`. -/
def fieldNames : List String :=
  ["previous", "destination", "balance", "source", "representative", "account", "link"]

/-- Full frame length of a block frame with type byte `t` in a `bulk_pull`
response stream: type byte + payload + 64-byte signature + 8-byte work. -/
def frameLen (t : Nat) : Nat := BLOCK_LENGTHS.getD t 0 + 73

/-- A complete well-formed block frame: a valid transaction block type byte
(2‥6) followed by exactly the type-specific payload, signature and work. -/
def isFrame (f : Bytes) : Bool :=
  match f.head? with
  | some t => decide (2 ≤ t) && decide (t ≤ 6) && (f.length == frameLen t)
  | none => false

/-- A (possibly empty) strict prefix of a well-formed frame. -/
def isFrameStub (p : Bytes) : Bool :=
  match p.head? with
  | some t => decide (2 ≤ t) && decide (t ≤ 6) && decide (p.length < frameLen t)
  | none => true

/-- The parsed body a complete frame decodes to through the `bulk_pull`
response framing. -/
def frameBlock (f : Bytes) : ParsedBody :=
  match parseMessage (BULK_PULL_PREFIX ++ f) false with
  | .ok m => m.body
  | .error _ => .raw []

/-- Split a byte list into consecutive chunks of the given lengths. -/
def chunksOf : List Nat → Bytes → List Bytes
  | [], _ => []
  | n :: ns, b => b.take n :: chunksOf ns (b.drop n)

/-- The block-type name an extension value decodes to. -/
def tnameOf (c : Nat) : String := (BLOCK_TYPES_INDEX.get? c).getD ""

/-- Payload length (`BLOCK_LENGTHS[c]`) of a block-type code. -/
def payloadLen (c : Nat) : Nat := BLOCK_LENGTHS.getD c 0

/-- An unsigned `receive` block with well-formed fields and work but no
signature (and no signing key supplied at render time). -/
def c6Input : BlockObj :=
  { type := some "receive"
    previous := some (List.replicate 32 0)
    source := some (List.replicate 32 0)
    work := some (List.replicate 8 0) }

end Nano

namespace Nano

lemma slice_append3 (a b c : Bytes) (s e : Nat) (hs : a.length = s) (he : e - s = b.length) :
    slice (a ++ b ++ c) s e = b := by
  subst hs
  have h1 : a ++ b ++ c = a ++ (b ++ c) := by simp
  rw [slice, h1, List.drop_left, he, List.take_left]

lemma slice_append2 (a b : Bytes) (s e : Nat) (hs : a.length = s) (he : e - s = b.length) :
    slice (a ++ b) s e = b := by
  subst hs
  rw [slice, List.drop_left, he, List.take_length]

lemma lastN_append (a b : Bytes) : lastN (a ++ b) b.length = b := by
  simp [lastN]

lemma parseFields_spec (names : List String) (vals : List Bytes)
    (h : List.Forall₂ (fun n v => (v : Bytes).length = fieldLength n) names vals) :
    ∀ (pre suf : Bytes),
      parseFields (pre ++ vals.flatten ++ suf) names pre.length
        = (names.zip vals, pre.length + vals.flatten.length) := by
  induction h with
  | nil => intro pre suf; simp [parseFields]
  | cons hv htl ih =>
    intro pre suf
    rename_i n v ns vs
    have hbuf : pre ++ (v :: vs).flatten ++ suf = (pre ++ v) ++ vs.flatten ++ suf := by
      simp
    have hslice : slice (pre ++ (v :: vs).flatten ++ suf) pre.length (pre.length + fieldLength n) = v := by
      rw [hbuf]
      have : (pre ++ v) ++ vs.flatten ++ suf = pre ++ v ++ (vs.flatten ++ suf) := by simp
      rw [this]
      exact slice_append3 pre v (vs.flatten ++ suf) _ _ rfl (by omega)
    have hrec := ih (pre ++ v) suf
    rw [show (pre ++ v).length = pre.length + fieldLength n by simp [hv]] at hrec
    rw [← hbuf] at hrec
    simp only [parseFields, hslice, hrec]
    simp only [List.zip_cons_cons, Prod.mk.injEq]
    refine ⟨trivial, ?_⟩
    have hflat : ((v :: vs).flatten : Bytes).length = v.length + vs.flatten.length := by simp
    omega

/-- Wire bytes of a rendered `publish` message (default versions 7/7/1). -/

lemma parse_publish_generic (v2 v3 v4 c : Nat) (tname : String) (vals : List Bytes)
    (sig wire : Bytes)
    (hget : BLOCK_TYPES_INDEX.get? c = some tname)
    (hflds : List.Forall₂ (fun n v => (v : Bytes).length = fieldLength n) (blockFields tname) vals)
    (hsig : sig.length = 64) (hwire : wire.length = 8) :
    parseMessage (pubBytesV v2 v3 v4 c vals sig wire) false
      = .ok ⟨true, v2, v3, v4, "publish", c,
             none, .block ⟨tname, (blockFields tname).zip vals, blake2b vals.flatten, sig,
                     if (BIG_ENDIAN_WORK.findIdx? (fun x => x == tname)).isNone
                     then wire.reverse else wire⟩⟩ := by
  have g0 : (pubBytesV v2 v3 v4 c vals sig wire).getD 0 0 = 82 := by simp [pubBytesV]
  have g1 : (pubBytesV v2 v3 v4 c vals sig wire).getD 1 0 = 67 := by simp [pubBytesV]
  have g2 : (pubBytesV v2 v3 v4 c vals sig wire).getD 2 0 = v2 := by simp [pubBytesV]
  have g3 : (pubBytesV v2 v3 v4 c vals sig wire).getD 3 0 = v3 := by simp [pubBytesV]
  have g4 : (pubBytesV v2 v3 v4 c vals sig wire).getD 4 0 = v4 := by simp [pubBytesV]
  have g5 : (pubBytesV v2 v3 v4 c vals sig wire).getD 5 0 = 3 := by simp [pubBytesV]
  have hext : readUInt16BE (pubBytesV v2 v3 v4 c vals sig wire) 6 = c := by
    simp [readUInt16BE, pubBytesV]
  have hlen : (pubBytesV v2 v3 v4 c vals sig wire).length = 8 + vals.flatten.length + 72 := by
    simp [pubBytesV, hsig, hwire]
    omega
  have hpf : parseFields (pubBytesV v2 v3 v4 c vals sig wire) (blockFields tname) 8
      = ((blockFields tname).zip vals, 8 + vals.flatten.length) := by
    have h := parseFields_spec (blockFields tname) vals hflds
      ([0x52, 0x43, v2, v3, v4, 3, 0, c] : Bytes) (sig ++ wire)
    simp only [List.length_cons, List.length_nil] at h
    have hb : ([0x52, 0x43, v2, v3, v4, 3, 0, c] : Bytes) ++ vals.flatten ++ (sig ++ wire)
        = pubBytesV v2 v3 v4 c vals sig wire := by simp [pubBytesV]
    rw [hb] at h
    simpa using h
  have hnl : ¬ ((pubBytesV v2 v3 v4 c vals sig wire).length < 8) := by omega
  have hsl1 : slice (pubBytesV v2 v3 v4 c vals sig wire) 8 (8 + vals.flatten.length)
      = vals.flatten := by
    have hb : pubBytesV v2 v3 v4 c vals sig wire
        = ([0x52, 0x43, v2, v3, v4, 3, 0, c] : Bytes) ++ vals.flatten ++ (sig ++ wire) := by
      simp [pubBytesV]
    rw [hb]
    exact slice_append3 _ _ _ _ _ (by simp) (by omega)
  have hsl2 : slice (pubBytesV v2 v3 v4 c vals sig wire) (8 + vals.flatten.length)
      (8 + vals.flatten.length + 64) = sig := by
    have hb : pubBytesV v2 v3 v4 c vals sig wire
        = (([0x52, 0x43, v2, v3, v4, 3, 0, c] : Bytes) ++ vals.flatten) ++ sig ++ wire := by
      simp [pubBytesV]
    rw [hb]
    exact slice_append3 _ _ _ _ _
      (by simp only [List.length_append, List.length_cons, List.length_nil]; try omega) (by omega)
  have hsl3 : slice (pubBytesV v2 v3 v4 c vals sig wire) (8 + vals.flatten.length + 64)
      (8 + vals.flatten.length + 72) = wire := by
    have hb : pubBytesV v2 v3 v4 c vals sig wire
        = ((([0x52, 0x43, v2, v3, v4, 3, 0, c] : Bytes) ++ vals.flatten) ++ sig) ++ wire := by
      simp [pubBytesV]
    rw [hb]
    exact slice_append2 _ _ _ _
      (by simp only [List.length_append, List.length_cons, List.length_nil, hsig]; try omega)
      (by omega)
  have hcond : (List.length (pubBytesV v2 v3 v4 c vals sig wire)
      = 8 + vals.flatten.length + 72) = True := by
    simp [hlen]
  simp only [List.getD_eq_getElem?_getD] at g0 g1 g2 g3 g4 g5
  simp only [List.get?_eq_getElem?] at hget
  simp only [List.length_flatten] at hpf hsl1 hsl2 hsl3 hcond
  simp [parseMessage, g0, g1, g2, g3, g4, g5, hext, hnl, hpf, hsl1, hsl2, hsl3,
        MESSAGE_TYPES, hget, hcond]

lemma wireWork_length (t : String) (w : Bytes) : (wireWork t w).length = w.length := by
  unfold wireWork
  split <;> simp

lemma wireWork_parse_back (t : String) (w : Bytes) :
    (if (BIG_ENDIAN_WORK.findIdx? (fun x => x == t)).isNone
     then (wireWork t w).reverse else wireWork t w) = w := by
  unfold wireWork
  split <;> simp

lemma render_publish_eq (b : BlockObj) (t : String) (c : Nat) (vals : List Bytes) (sig w : Bytes)
    (hbt : b.type = some t)
    (hbc : blockTypeCode t = some c) (hc : c ≤ 6)
    (hfound : BLOCK_TYPES_INDEX.findIdx? (fun x => x == t) = some c)
    (hvals : getValues b (blockFields t) = .ok vals)
    (hsg : b.signature = some sig)
    (hwk : b.work = some w)
    (hwlen : w.length = 8) :
    renderMessage (publishMsg b) none
      = .ok ⟨some (pubBytes c vals sig (wireWork t w)), some (blake2b vals.flatten)⟩ := by
  have hmt : MESSAGE_TYPES.findIdx? (fun x => x == "publish") = some 3 := by decide
  have hwire : (wireWork t w).length = 8 := by rw [wireWork_length]; exact hwlen
  have hdiv : c / 256 % 256 = 0 := by omega
  have hmod : c % 256 = c := by omega
  simp [renderMessage, publishMsg, hmt, renderBlockBody, hbt, hbc, hfound, hvals, hsg, hwk,
        writeU16BE, hdiv, hmod, hwire, pubBytes, pubBytesV, bodyTruthy]

lemma mkBlock_field_eq (t : String) (vals : List Bytes) (sig w : Bytes) (n : String)
    (hn : n ∈ fieldNames) :
    (mkBlock t vals sig w).field n = lookupField ((blockFields t).zip vals) n := by
  fin_cases hn <;> rfl

lemma lookupField_zip (names : List String) (vals : List Bytes) (hnd : names.Nodup) :
    ∀ n v, (n, v) ∈ names.zip vals → lookupField (names.zip vals) n = some v := by
  induction names generalizing vals with
  | nil => intro n v hmem; simp at hmem
  | cons m ms ih =>
    intro n v hmem
    cases vals with
    | nil => simp at hmem
    | cons u vs =>
      rw [List.zip_cons_cons] at hmem
      rcases List.mem_cons.mp hmem with heq | htl
      · cases heq
        simp [lookupField, List.find?]
      · have hn_ms : n ∈ ms := (List.of_mem_zip htl).1
        have hmn : (m == n) = false :=
          beq_eq_false_iff_ne.mpr (fun h => ((List.nodup_cons.mp hnd).1 (h ▸ hn_ms)))
        rw [List.zip_cons_cons]
        simp only [lookupField, List.find?, hmn]
        exact ih vs (List.nodup_cons.mp hnd).2 n v htl

lemma getValues_of_fields (b : BlockObj) (names : List String) (vals : List Bytes)
    (h : List.Forall₂ (fun n v => b.field n = some v ∧ (v : Bytes).length = fieldLength n)
          names vals) :
    getValues b names = .ok vals := by
  induction h with
  | nil => rfl
  | cons h1 _ ih => simp [getValues, h1.1, h1.2, ih, Except.map]

lemma getValues_mkBlock (t : String) (vals : List Bytes) (sig w : Bytes)
    (hnd : (blockFields t).Nodup)
    (hseven : ∀ n ∈ blockFields t, n ∈ fieldNames)
    (hflds : List.Forall₂ (fun n v => (v : Bytes).length = fieldLength n) (blockFields t) vals) :
    getValues (mkBlock t vals sig w) (blockFields t) = .ok vals := by
  apply getValues_of_fields
  rw [List.forall₂_iff_zip] at hflds ⊢
  obtain ⟨hlen, hzip⟩ := hflds
  refine ⟨hlen, ?_⟩
  intro n v hmem
  refine ⟨?_, hzip hmem⟩
  have hn : n ∈ blockFields t := (List.of_mem_zip hmem).1
  rw [mkBlock_field_eq t vals sig w n (hseven n hn)]
  exact lookupField_zip _ _ hnd n v hmem

lemma mkBlock_render_parse (t : String) (vals : List Bytes) (sig w : Bytes)
    (hbc : blockTypeCode t = some (variantCode t)) (hc : variantCode t ≤ 6)
    (hfound : BLOCK_TYPES_INDEX.findIdx? (fun x => x == t) = some (variantCode t))
    (hget : BLOCK_TYPES_INDEX.get? (variantCode t) = some t)
    (hvals : getValues (mkBlock t vals sig w) (blockFields t) = .ok vals)
    (hflds : List.Forall₂ (fun n v => (v : Bytes).length = fieldLength n) (blockFields t) vals)
    (hsig : sig.length = 64) (hw : w.length = 8) :
    renderMessage (publishMsg (mkBlock t vals sig w)) none
      = .ok ⟨some (pubBytes (variantCode t) vals sig (wireWork t w)), some (blake2b vals.flatten)⟩ ∧
    parseMessage (pubBytes (variantCode t) vals sig (wireWork t w)) false
      = .ok ⟨true, 7, 7, 1, "publish", variantCode t, none,
             .block ⟨t, (blockFields t).zip vals, blake2b vals.flatten, sig, w⟩⟩ := by
  constructor
  · exact render_publish_eq _ t (variantCode t) vals sig w rfl hbc hc hfound hvals rfl rfl hw
  · have h := parse_publish_generic 7 7 1 (variantCode t) t vals sig (wireWork t w) hget hflds hsig
      (by rw [wireWork_length]; exact hw)
    rw [wireWork_parse_back] at h
    exact h

lemma chunksOf_flatten (ns : List Nat) (b : Bytes) :
    (chunksOf ns b).flatten = b.take ns.sum := by
  induction ns generalizing b with
  | nil => simp [chunksOf]
  | cons n ns ih =>
    simp only [chunksOf, List.flatten_cons, ih, List.sum_cons]
    rw [List.take_add]

lemma chunksOf_lengths (ns : List Nat) (b : Bytes) (h : ns.sum ≤ b.length) :
    List.Forall₂ (fun n v => (v : Bytes).length = n) ns (chunksOf ns b) := by
  induction ns generalizing b with
  | nil => exact .nil
  | cons n ns ih =>
    simp only [List.sum_cons] at h
    refine .cons ?_ (ih (b.drop n) ?_)
    · simp only [List.length_take]
      omega
    · simp only [List.length_drop]
      omega

lemma frame_decomp_parse (c : Nat) (rest : Bytes)
    (hget : BLOCK_TYPES_INDEX.get? c = some (tnameOf c))
    (hsum : ((blockFields (tnameOf c)).map fieldLength).sum = payloadLen c)
    (hrl : rest.length = payloadLen c + 72) :
    ∃ m, parseMessage (BULK_PULL_PREFIX ++ c :: rest) false = .ok m := by
  have hflat : (chunksOf ((blockFields (tnameOf c)).map fieldLength) rest).flatten
      = rest.take (payloadLen c) := by
    rw [chunksOf_flatten, hsum]
  have hrest : rest
      = (chunksOf ((blockFields (tnameOf c)).map fieldLength) rest).flatten
        ++ (rest.drop (payloadLen c)).take 64
        ++ rest.drop (payloadLen c + 64) := by
    rw [hflat]
    have hdd : rest.drop (payloadLen c + 64)
        = (rest.drop (payloadLen c)).drop 64 := by
      rw [List.drop_drop]
      try (congr 1)
      try omega
    rw [hdd, List.append_assoc, List.take_append_drop, List.take_append_drop]
  have hflds : List.Forall₂ (fun n v => (v : Bytes).length = fieldLength n)
      (blockFields (tnameOf c))
      (chunksOf ((blockFields (tnameOf c)).map fieldLength) rest) := by
    have h := chunksOf_lengths ((blockFields (tnameOf c)).map fieldLength) rest
      (by rw [hsum]; omega)
    exact List.forall₂_map_left_iff.mp h
  have hsg : ((rest.drop (payloadLen c)).take 64 : Bytes).length = 64 := by
    simp
    omega
  have hwr : (rest.drop (payloadLen c + 64) : Bytes).length = 8 := by
    simp
    omega
  have hbuf : BULK_PULL_PREFIX ++ c :: rest
      = pubBytesV 5 5 1 c (chunksOf ((blockFields (tnameOf c)).map fieldLength) rest)
          ((rest.drop (payloadLen c)).take 64)
          (rest.drop (payloadLen c + 64)) := by
    conv_lhs => rw [hrest]
    simp [BULK_PULL_PREFIX, pubBytesV]
  rw [hbuf]
  exact ⟨_, parse_publish_generic 5 5 1 c (tnameOf c) _ _ _ hget hflds hsg hwr⟩

lemma parse_frame_ok (f : Bytes) (hf : isFrame f = true) :
    ∃ m, parseMessage (BULK_PULL_PREFIX ++ f) false = .ok m := by
  cases f with
  | nil => simp [isFrame] at hf
  | cons t rest =>
    simp only [isFrame, List.head?, Bool.and_eq_true, decide_eq_true_eq, beq_iff_eq,
      List.length_cons] at hf
    obtain ⟨⟨h2, h6⟩, hl⟩ := hf
    interval_cases t <;>
      exact frame_decomp_parse _ rest (by decide) (by decide)
        (by simp only [frameLen, payloadLen, BLOCK_LENGTHS, List.getD] at hl ⊢ <;> omega)

lemma getD_append_at (a : Bytes) (x : Nat) (r : Bytes) (d : Nat) :
    (a ++ x :: r).getD a.length d = x := by
  rw [List.getD_eq_getElem?_getD, List.getElem?_append_right (le_refl a.length)]
  simp

lemma slice_to_end (a p : Bytes) : slice (a ++ p) a.length (a ++ p).length = p := by
  simp [slice, List.drop_left, List.length_append]

lemma isFrame_parts (f : Bytes) (hf : isFrame f = true) :
    ∃ t rest, f = t :: rest ∧ 2 ≤ t ∧ t ≤ 6 ∧ f.length = frameLen t := by
  cases f with
  | nil => simp [isFrame] at hf
  | cons t rest =>
    simp only [isFrame, List.head?, Bool.and_eq_true, decide_eq_true_eq, beq_iff_eq,
      List.length_cons] at hf
    exact ⟨t, rest, rfl, hf.1.1, hf.1.2, by simp [hf.2]⟩

lemma parseChainGo_step (a f r : Bytes) (rem : Option Bytes) (out : List ParsedBody)
    (hf : isFrame f = true) :
    parseChainGo (a ++ f ++ r) a.length rem out
      = parseChainGo (a ++ f ++ r) (a.length + f.length) rem (out ++ [frameBlock f]) := by
  obtain ⟨t, rest, rfl, h2, h6, hlen⟩ := isFrame_parts f hf
  simp only [frameLen, List.length_cons] at hlen
  have hb : a ++ (t :: rest) ++ r = a ++ t :: (rest ++ r) := by simp
  rw [hb]
  have hbt : (a ++ t :: (rest ++ r)).getD a.length 0 = t := getD_append_at a t (rest ++ r) 0
  have hlt : a.length < (a ++ t :: (rest ++ r)).length := by
    simp only [List.length_append, List.length_cons]
    omega
  have ht7 : t < BLOCK_LENGTHS.length := by
    simp only [BLOCK_LENGTHS, List.length_cons, List.length_nil]
    omega
  have ht1 : ¬ (t = 1) := by omega
  have hnotshort : ¬ ((a ++ t :: (rest ++ r)).length
      < a.length + (BLOCK_LENGTHS.getD t 0 + 1 + 64 + 8)) := by
    simp only [List.length_append, List.length_cons]
    omega
  have hslice : slice (a ++ t :: (rest ++ r)) a.length
      (a.length + (BLOCK_LENGTHS.getD t 0 + 1 + 64 + 8)) = t :: rest := by
    rw [← hb]
    exact slice_append3 a (t :: rest) r _ _ rfl (by simp only [List.length_cons]; omega)
  obtain ⟨m, hm⟩ := parse_frame_ok (t :: rest) hf
  have hfb : frameBlock (t :: rest) = m.body := by simp [frameBlock, hm]
  have hoff : a.length + (BLOCK_LENGTHS.getD t 0 + 1 + 64 + 8)
      = a.length + (t :: rest).length := by
    simp only [List.length_cons]
    omega
  rw [parseChainGo, dif_pos hlt]
  simp only [hbt]
  rw [dif_pos ht7, if_neg ht1, if_neg hnotshort, hslice]
  simp only [hm, hoff, hfb]

lemma parseChainGo_stub (a p : Bytes) (rem : Option Bytes) (out : List ParsedBody)
    (hp : isFrameStub p = true) :
    parseChainGo (a ++ p) a.length rem out
      = .ok (out, if p.isEmpty then rem else some p) := by
  cases p with
  | nil =>
    rw [parseChainGo, dif_neg (by simp)]
    simp
  | cons t p' =>
    simp only [isFrameStub, List.head?, Bool.and_eq_true, decide_eq_true_eq] at hp
    obtain ⟨⟨h2, h6⟩, hplen⟩ := hp
    simp only [frameLen, List.length_cons] at hplen
    have hbt : (a ++ t :: p').getD a.length 0 = t := getD_append_at a t p' 0
    have hlt : a.length < (a ++ t :: p').length := by
      simp only [List.length_append, List.length_cons]
      omega
    have ht7 : t < BLOCK_LENGTHS.length := by
      simp only [BLOCK_LENGTHS, List.length_cons, List.length_nil]
      omega
    have ht1 : ¬ (t = 1) := by omega
    have hshort : (a ++ t :: p').length < a.length + (BLOCK_LENGTHS.getD t 0 + 1 + 64 + 8) := by
      simp only [List.length_append, List.length_cons]
      omega
    have hslice := slice_to_end a (t :: p')
    rw [parseChainGo, dif_pos hlt]
    simp only [hbt]
    rw [dif_pos ht7, if_neg ht1, if_pos hshort, hslice]
    rw [parseChainGo,
      dif_neg (by simp only [List.length_append, List.length_cons, not_lt]; omega)]
    simp

lemma parseChainGo_frames (frames : List Bytes)
    (hframes : ∀ f ∈ frames, isFrame f = true) :
    ∀ (a stub : Bytes), isFrameStub stub = true →
    ∀ (rem : Option Bytes) (out : List ParsedBody),
      parseChainGo (a ++ frames.flatten ++ stub) a.length rem out
        = .ok (out ++ frames.map frameBlock, if stub.isEmpty then rem else some stub) := by
  induction frames with
  | nil =>
    intro a stub hstub rem out
    simpa using parseChainGo_stub a stub rem out hstub
  | cons f fs ih =>
    intro a stub hstub rem out
    have hf : isFrame f = true := hframes f (by simp)
    have hstep := parseChainGo_step a f (fs.flatten ++ stub) rem out hf
    have hihyp := ih (fun g hg => hframes g (by simp [hg])) (a ++ f) stub hstub rem
      (out ++ [frameBlock f])
    rw [List.length_append] at hihyp
    simp only [List.append_assoc] at hstep hihyp ⊢
    simp only [List.flatten_cons, List.append_assoc]
    rw [hstep, hihyp]
    simp

lemma parseChain_frames (frames : List Bytes)
    (hframes : ∀ f ∈ frames, isFrame f = true)
    (stub : Bytes) (hstub : isFrameStub stub = true) :
    parseChain (frames.flatten ++ stub) = .ok (frames.map frameBlock, some stub) := by
  have h := parseChainGo_frames frames hframes [] stub hstub (some []) []
  simp only [List.nil_append, List.length_nil] at h
  rw [parseChain]
  by_cases he : stub.isEmpty
  · rw [List.isEmpty_iff.mp he] at h ⊢
    simpa using h
  · simp only [he, if_false] at h
    exact h

lemma stream_decomp (frames : List Bytes) (hframes : ∀ f ∈ frames, isFrame f = true)
    (stub : Bytes) (hstub : isFrameStub stub = true) :
    ∀ (P Q : Bytes), P ++ Q = frames.flatten ++ stub →
    ∃ fs1 fs2 p1, frames = fs1 ++ fs2 ∧ (∀ f ∈ fs2, isFrame f = true) ∧
      isFrameStub p1 = true ∧ P = fs1.flatten ++ p1 ∧ p1 ++ Q = fs2.flatten ++ stub := by
  induction frames with
  | nil =>
    intro P Q hsplit
    simp only [List.flatten_nil, List.nil_append] at hsplit
    refine ⟨[], [], P, rfl, by simp, ?_, by simp, by simpa using hsplit⟩
    cases P with
    | nil => rfl
    | cons x P' =>
      subst hsplit
      simp only [isFrameStub, List.cons_append, List.head?, Bool.and_eq_true,
        decide_eq_true_eq, List.length_cons, List.length_append] at hstub ⊢
      obtain ⟨⟨h2, h6⟩, hlt⟩ := hstub
      exact ⟨⟨h2, h6⟩, by omega⟩
  | cons f fs ih =>
    intro P Q hsplit
    obtain ⟨t, rest, hft, h2, h6, hlen⟩ := isFrame_parts f (hframes f (by simp))
    simp only [frameLen] at hlen
    rcases Nat.lt_or_ge P.length f.length with hplt | hge
    · refine ⟨[], f :: fs, P, rfl, hframes, ?_, by simp, by simpa using hsplit⟩
      cases P with
      | nil => rfl
      | cons x P' =>
        subst hft
        simp only [List.flatten_cons, List.cons_append, List.append_assoc] at hsplit
        have hx : x = t := by
          have := congrArg (fun l => List.head? l) hsplit
          simpa using this
        subst hx
        simp only [isFrameStub, List.head?, Bool.and_eq_true, decide_eq_true_eq]
        simp only [List.length_cons] at hplt hlen ⊢
        exact ⟨⟨h2, h6⟩, by simp only [frameLen]; omega⟩
    · have htake : P.take f.length = f := by
        have hcong := congrArg (List.take f.length) hsplit
        rw [List.take_append_eq_append_take, List.take_append_eq_append_take] at hcong
        simpa [Nat.sub_eq_zero_of_le hge, Nat.sub_self] using hcong
      have hdrop : (P.drop f.length) ++ Q = fs.flatten ++ stub := by
        have hcong := congrArg (List.drop f.length) hsplit
        rw [List.drop_append_eq_append_drop, List.drop_append_eq_append_drop] at hcong
        simpa [Nat.sub_eq_zero_of_le hge, Nat.sub_self] using hcong
      obtain ⟨fs1, fs2, p1, hfr12, hwf2, hp1, hPd, hrest⟩ :=
        ih (fun g hg => hframes g (by simp [hg])) (P.drop f.length) Q hdrop
      refine ⟨f :: fs1, fs2, p1, by rw [hfr12]; rfl, hwf2, hp1, ?_, hrest⟩
      calc P = P.take f.length ++ P.drop f.length := (List.take_append_drop _ _).symm
        _ = f ++ (fs1.flatten ++ p1) := by rw [htake, hPd]
        _ = (f :: fs1).flatten ++ p1 := by simp

lemma feedChunks_inv (chunks : List Bytes) :
    ∀ (frames : List Bytes) (stub rem0 : Bytes),
    (∀ f ∈ frames, isFrame f = true) → isFrameStub stub = true → isFrameStub rem0 = true →
    rem0 ++ chunks.flatten = frames.flatten ++ stub →
    feedChunks chunks rem0 = .ok (frames.map frameBlock, stub) := by
  induction chunks with
  | nil =>
    intro frames stub rem0 hfr hstub hrem0 hsplit
    simp only [List.flatten_nil, List.append_nil] at hsplit
    cases frames with
    | nil =>
      simp only [List.flatten_nil, List.nil_append] at hsplit
      subst hsplit
      rfl
    | cons f fs =>
      exfalso
      obtain ⟨t, rest, hft, h2, h6, hlen⟩ := isFrame_parts f (hfr f (by simp))
      subst hft
      subst hsplit
      simp only [frameLen, List.length_cons] at hlen
      simp only [isFrameStub, List.flatten_cons, List.cons_append, List.head?,
        Bool.and_eq_true, decide_eq_true_eq, List.length_cons, List.length_append,
        frameLen] at hrem0
      omega
  | cons c cs ih =>
    intro frames stub rem0 hfr hstub hrem0 hsplit
    have hsplit' : (rem0 ++ c) ++ cs.flatten = frames.flatten ++ stub := by
      simpa [List.append_assoc] using hsplit
    obtain ⟨fs1, fs2, p1, hfr12, hwf2, hp1, hP, hrest⟩ :=
      stream_decomp frames hfr stub hstub (rem0 ++ c) cs.flatten hsplit'
    have hwf1 : ∀ f ∈ fs1, isFrame f = true := fun f hf =>
      hfr f (by rw [hfr12]; exact List.mem_append_left _ hf)
    have hchain : parseChain (rem0 ++ c) = .ok (fs1.map frameBlock, some p1) := by
      rw [hP]
      exact parseChain_frames fs1 hwf1 p1 hp1
    have hrec := ih fs2 stub p1 hwf2 hstub hp1 hrest
    rw [feedChunks, hchain]
    simp only [hrec]
    rw [hfr12]
    simp

end Nano

namespace Nano

lemma zeroVals_forall₂ (t : String) :
    List.Forall₂ (fun n v => (v : Bytes).length = fieldLength n) (blockFields t) (zeroVals t) := by
  unfold zeroVals
  induction blockFields t with
  | nil => exact .nil
  | cons a l ih => exact .cons (by simp) ih

lemma zeroBlock_facts (t : String) (w : Bytes) (hw : w.length = 8)
    (h1 : blockTypeCode t = some (variantCode t)) (h2 : variantCode t ≤ 6)
    (h3 : BLOCK_TYPES_INDEX.findIdx? (fun x => x == t) = some (variantCode t))
    (h4 : BLOCK_TYPES_INDEX.get? (variantCode t) = some t)
    (h5 : (blockFields t).Nodup) (h6 : ∀ n ∈ blockFields t, n ∈ fieldNames) :
    ∃ m, (renderMessage (publishMsg (zeroBlock t w)) none).map (fun r => r.message)
        = .ok (some m) ∧
      lastN m 8 = wireWork t w ∧
      (parseMessage m false).map parsedWork = .ok (some w) := by
  obtain ⟨hr, hp⟩ := mkBlock_render_parse t (zeroVals t) (List.replicate 64 0) w h1 h2 h3 h4
    (getValues_mkBlock t _ _ _ h5 h6 (zeroVals_forall₂ t)) (zeroVals_forall₂ t) (by simp) hw
  have hr' : renderMessage (publishMsg (zeroBlock t w)) none
      = .ok ⟨some (pubBytes (variantCode t) (zeroVals t) (List.replicate 64 0) (wireWork t w)),
             some (blake2b (zeroVals t).flatten)⟩ := hr
  refine ⟨pubBytes (variantCode t) (zeroVals t) (List.replicate 64 0) (wireWork t w), ?_, ?_, ?_⟩
  · rw [hr']
    rfl
  · unfold pubBytes
    rw [show (8 : Nat) = (wireWork t w).length from by rw [wireWork_length, hw]]
    exact lastN_append _ _
  · rw [hp]
    rfl

end Nano

namespace Nano

/-- C1: Block encode/decode round-trip.  For every block variant (send,
receive, open, change, state), every assignment of the variant's required
fields to byte strings of the mandated lengths, a 64-byte signature and an
8-byte work value, rendering the block as a `publish` message and parsing
the rendered bytes back returns a block with the same field values (in
field order), the same signature, the same work, and the same hash as the
rendered one. -/
theorem c1_block_roundtrip (t : String)
    (hmem : t ∈ (["send", "receive", "open", "change", "state"] : List String))
    (vals : List Bytes)
    (hflds : List.Forall₂ (fun n v => (v : Bytes).length = fieldLength n) (blockFields t) vals)
    (sig w : Bytes) (hsig : sig.length = 64) (hw : w.length = 8) :
    ∃ bytes hsh m,
      renderMessage (publishMsg (mkBlock t vals sig w)) none = .ok ⟨some bytes, some hsh⟩ ∧
      parseMessage bytes false = .ok m ∧
      m.type = "publish" ∧
      m.body = .block ⟨t, (blockFields t).zip vals, hsh, sig, w⟩ := by
  simp only [List.mem_cons, List.not_mem_nil, or_false] at hmem
  rcases hmem with rfl | rfl | rfl | rfl | rfl <;>
  · obtain ⟨hr, hp⟩ := mkBlock_render_parse _ vals sig w (by decide) (by decide) (by decide)
      (by decide) (getValues_mkBlock _ vals sig w (by decide) (by decide) hflds) hflds hsig hw
    exact ⟨_, _, _, hr, hp, rfl, rfl⟩

/-- Witness for C1 at a concrete `receive` block. -/
theorem c1_block_roundtrip_witness :
    (("receive" : String) ∈ (["send", "receive", "open", "change", "state"] : List String)) ∧
    List.Forall₂ (fun n v => (v : Bytes).length = fieldLength n) (blockFields "receive")
      [List.replicate 32 1, List.replicate 32 2] ∧
    (List.replicate 64 3 : Bytes).length = 64 ∧ ([1, 2, 3, 4, 5, 6, 7, 8] : Bytes).length = 8 ∧
    ∃ bytes hsh m,
      renderMessage (publishMsg (mkBlock "receive" [List.replicate 32 1, List.replicate 32 2]
        (List.replicate 64 3) [1, 2, 3, 4, 5, 6, 7, 8])) none = .ok ⟨some bytes, some hsh⟩ ∧
      parseMessage bytes false = .ok m ∧
      m.type = "publish" ∧
      m.body = .block ⟨"receive",
        (blockFields "receive").zip [List.replicate 32 1, List.replicate 32 2], hsh,
        List.replicate 64 3, [1, 2, 3, 4, 5, 6, 7, 8]⟩ := by
  have hf : List.Forall₂ (fun n v => (v : Bytes).length = fieldLength n) (blockFields "receive")
      [List.replicate 32 1, List.replicate 32 2] := .cons (by decide) (.cons (by decide) .nil)
  exact ⟨by decide, hf, by decide, by decide,
    c1_block_roundtrip "receive" (by decide) _ hf _ _ (by decide) (by decide)⟩

/-- C2: Full-mode vote parsing (code bug).  Any `confirm_ack` datagram
parsed with minimal mode off fails with a ReferenceError: the static parse
function calls the bare identifier `parseMessage`, which is bound in no
scope, before it can parse the attached block or verify the vote
signature.  Valid votes therefore never parse in full mode and invalid
signatures never produce `signature_invalid`. -/
theorem c2_full_vote_mode_reference_error (buf : Bytes) (h0 : buf.getD 0 0 = 0x52)
    (h1 : buf.getD 1 0 = 0x43 ∨ buf.getD 1 0 = 0x41)
    (h5 : buf.getD 5 0 = 5) (hlen : 8 ≤ buf.length) :
    parseMessage buf false = .error (.referenceError "parseMessage") := by
  have hnl : ¬ (buf.length < 8) := by omega
  simp only [List.getD_eq_getElem?_getD] at h0 h5
  rcases h1 with h1 | h1 <;>
    · simp only [List.getD_eq_getElem?_getD] at h1
      simp [parseMessage, h0, h1, h5, hnl, MESSAGE_TYPES]

/-- Witness for C2 at a minimal concrete `confirm_ack` header. -/
theorem c2_full_vote_mode_reference_error_witness :
    (([0x52, 0x43, 7, 7, 1, 5, 0, 0] : Bytes).getD 0 0 = 0x52) ∧
    (([0x52, 0x43, 7, 7, 1, 5, 0, 0] : Bytes).getD 1 0 = 0x43 ∨
     ([0x52, 0x43, 7, 7, 1, 5, 0, 0] : Bytes).getD 1 0 = 0x41) ∧
    (([0x52, 0x43, 7, 7, 1, 5, 0, 0] : Bytes).getD 5 0 = 5) ∧
    8 ≤ ([0x52, 0x43, 7, 7, 1, 5, 0, 0] : Bytes).length ∧
    parseMessage [0x52, 0x43, 7, 7, 1, 5, 0, 0] false
      = .error (.referenceError "parseMessage") :=
  ⟨rfl, Or.inl rfl, rfl, by decide,
   c2_full_vote_mode_reference_error [0x52, 0x43, 7, 7, 1, 5, 0, 0] rfl (Or.inl rfl) rfl
     (by decide)⟩

set_option maxRecDepth 100000 in
/-- C3: Keepalive round-trip (code bug).  Rendering a keepalive with the
single peer 1.2.3.4:7075 and parsing it back returns exactly that peer, but
with the two peers 1.2.3.4:7075 and 5.6.7.8:7075 the parse returns the
first peer followed by a garbage IPv6 entry instead of the second peer:
the renderer packs entries at a 16-byte stride while the parser (and the
144-byte body layout) uses 18-byte slots. -/
theorem c3_keepalive_render_parse_mismatch :
    keepaliveRoundTrip ["1.2.3.4:7075"] = .ok ["1.2.3.4:7075"] ∧
    keepaliveRoundTrip ["1.2.3.4:7075", "5.6.7.8:7075"]
      = .ok ["1.2.3.4:7075", "[::ffff:506:708:a31b]:0"] ∧
    (["1.2.3.4:7075", "[::ffff:506:708:a31b]:0"] : List String)
      ≠ ["1.2.3.4:7075", "5.6.7.8:7075"] := by
  refine ⟨by decide, by decide, by decide⟩

/-- C4 counterexample: observing `a, b, a, c` on an empty directory with
capacity 2 leaves `[c, a]`, not `[a, c]` as the claim states. -/
theorem c4_observe_counterexample :
    ["a", "b", "a", "c"].foldl (fun ps x => observe ps 2 x) [] = ["c", "a"] ∧
    ¬ (["a", "b", "a", "c"].foldl (fun ps x => observe ps 2 x) [] = ["a", "c"]) :=
  ⟨by decide, by decide⟩

/-- C4 (amended): each observation removes the address if present, inserts
it at the front and drops the last entry past capacity; after observing
pairwise distinct `A, B, A, C` on an empty directory with capacity 2 the
directory contains `[C, A]` in that order (most recent first). -/
theorem c4_observe_amended (A B C : String) (hab : A ≠ B) (hac : A ≠ C) (hbc : B ≠ C) :
    [A, B, A, C].foldl (fun ps x => observe ps 2 x) [] = [C, A] := by
  have eab : (A == B) = false := beq_eq_false_iff_ne.mpr hab
  have eba : (B == A) = false := beq_eq_false_iff_ne.mpr (fun h => hab h.symm)
  have eac : (A == C) = false := beq_eq_false_iff_ne.mpr hac
  have ebc : (B == C) = false := beq_eq_false_iff_ne.mpr hbc
  simp [observe, List.erase_cons, eab, eba, eac, ebc]

/-- Witness for the amended C4 at concrete distinct addresses. -/
theorem c4_observe_amended_witness :
    (("a" : String) ≠ "b") ∧ (("a" : String) ≠ "c") ∧ (("b" : String) ≠ "c") ∧
    ["a", "b", "a", "c"].foldl (fun ps x => observe ps 2 x) [] = ["c", "a"] :=
  ⟨by decide, by decide, by decide,
   c4_observe_amended "a" "b" "c" (by decide) (by decide) (by decide)⟩

/-- C5: Chain reassembly.  For every stream of complete well-formed block
frames (followed by at most a strict prefix of a further frame) and every
split of that stream into consecutive chunks, feeding the chunks through
the `fetchAccount` data loop (retained residual concatenated with the next
chunk, then `parseChain`) yields exactly one decoded block per complete
frame — the same list `parseChain` produces on the unsplit stream — and
retains exactly the incomplete trailing bytes. -/
theorem c5_chain_reassembly (frames chunks : List Bytes) (stub : Bytes)
    (hframes : ∀ f ∈ frames, isFrame f = true) (hstub : isFrameStub stub = true)
    (hsplit : chunks.flatten = frames.flatten ++ stub) :
    feedChunks chunks [] = .ok (frames.map frameBlock, stub) ∧
    parseChain frames.flatten = .ok (frames.map frameBlock, some []) ∧
    (frames.map frameBlock).length = frames.length := by
  refine ⟨?_, ?_, by simp⟩
  · exact feedChunks_inv chunks frames stub [] hframes hstub rfl (by simpa using hsplit)
  · have h := parseChain_frames frames hframes [] rfl
    simpa using h

set_option maxRecDepth 100000 in
/-- Witness for C5: a 137-byte `receive` frame split into chunks of 100 and
37 bytes yields exactly one decoded block. -/
theorem c5_chain_reassembly_witness :
    (∀ f ∈ ([3 :: List.replicate 136 7] : List Bytes), isFrame f = true) ∧
    isFrameStub [] = true ∧
    ([(3 :: List.replicate 136 7 : Bytes).take 100,
      (3 :: List.replicate 136 7 : Bytes).drop 100] : List Bytes).flatten
      = ([3 :: List.replicate 136 7] : List Bytes).flatten ++ [] ∧
    (feedChunks [(3 :: List.replicate 136 7 : Bytes).take 100,
        (3 :: List.replicate 136 7 : Bytes).drop 100] []
      = .ok (([3 :: List.replicate 136 7] : List Bytes).map frameBlock, []) ∧
     parseChain ([3 :: List.replicate 136 7] : List Bytes).flatten
      = .ok (([3 :: List.replicate 136 7] : List Bytes).map frameBlock, some []) ∧
     (([3 :: List.replicate 136 7] : List Bytes).map frameBlock).length
      = ([3 :: List.replicate 136 7] : List Bytes).length) :=
  ⟨by decide, by decide, by decide,
   c5_chain_reassembly [3 :: List.replicate 136 7]
     [(3 :: List.replicate 136 7 : Bytes).take 100, (3 :: List.replicate 136 7 : Bytes).drop 100]
     [] (by decide) (by decide) (by decide)⟩

/-- C6: Unsigned encode (code bug).  Rendering a `publish` message whose
block has every required field at its mandated length and an 8-byte work
value, but no signature and no signing key, does not succeed with an
unsigned block: `Buffer.concat` over the undefined signature raises a
TypeError. -/
theorem c6_unsigned_render_type_error :
    renderMessage (publishMsg c6Input) none = .error .typeError := by
  decide

/-- C7: frontier_req rendering (code bug).  Rendering a `frontier_req`
message returns only the 36-byte default body (32 zero bytes + 4 bytes
0xFFFFFFFF): the 8-byte header is built but never prepended, so the result
is 36 bytes starting with 0x00, not the claimed 44 bytes starting with the
0x52 magic byte. -/
theorem c7_frontier_req_no_header :
    renderMessage { type := "frontier_req" } none = .ok ⟨some DEFAULT_FRONTIER_REQ, none⟩ ∧
    DEFAULT_FRONTIER_REQ.length = 36 ∧
    DEFAULT_FRONTIER_REQ.getD 0 0 ≠ 0x52 ∧
    DEFAULT_FRONTIER_REQ = List.replicate 32 0 ++ [255, 255, 255, 255] :=
  ⟨by decide, by decide, by decide, by decide⟩

/-- C8: Work endianness.  For every 8-byte raw work value, the wire work
field of a rendered `state` block is the raw value (big-endian) while for
`send` — and every other non-`state` variant — it is the byte-reversal;
the two wire forms are reversals of each other, and parsing applies the
inverse so the original work value is recovered in every variant. -/
theorem c8_work_endianness (w : Bytes) (hw : w.length = 8) :
    ∃ mSt mSe,
      (renderMessage (publishMsg (zeroBlock "state" w)) none).map (fun r => r.message)
        = .ok (some mSt) ∧
      (renderMessage (publishMsg (zeroBlock "send" w)) none).map (fun r => r.message)
        = .ok (some mSe) ∧
      lastN mSt 8 = w ∧ lastN mSe 8 = w.reverse ∧ lastN mSe 8 = (lastN mSt 8).reverse ∧
      (parseMessage mSt false).map parsedWork = .ok (some w) ∧
      (parseMessage mSe false).map parsedWork = .ok (some w) ∧
      ∀ t ∈ (["send", "receive", "open", "change"] : List String),
        ∃ m, (renderMessage (publishMsg (zeroBlock t w)) none).map (fun r => r.message)
            = .ok (some m) ∧
          lastN m 8 = w.reverse ∧ (parseMessage m false).map parsedWork = .ok (some w) := by
  obtain ⟨mSt, hrSt, hlSt, hpSt⟩ := zeroBlock_facts "state" w hw (by decide) (by decide)
    (by decide) (by decide) (by decide) (by decide)
  obtain ⟨mSe, hrSe, hlSe, hpSe⟩ := zeroBlock_facts "send" w hw (by decide) (by decide)
    (by decide) (by decide) (by decide) (by decide)
  have hwSt : wireWork "state" w = w := rfl
  have hwSe : wireWork "send" w = w.reverse := rfl
  rw [hwSt] at hlSt
  rw [hwSe] at hlSe
  refine ⟨mSt, mSe, hrSt, hrSe, hlSt, hlSe, by rw [hlSe, hlSt], hpSt, hpSe, ?_⟩
  intro t ht
  simp only [List.mem_cons, List.not_mem_nil, or_false] at ht
  rcases ht with rfl | rfl | rfl | rfl <;>
    exact zeroBlock_facts _ w hw (by decide) (by decide) (by decide) (by decide) (by decide)
      (by decide)

/-- Witness for C8 at a concrete 8-byte work value. -/
theorem c8_work_endianness_witness :
    (([1, 2, 3, 4, 5, 6, 7, 8] : Bytes).length = 8) ∧
    (∃ mSt mSe,
      (renderMessage (publishMsg (zeroBlock "state" [1, 2, 3, 4, 5, 6, 7, 8])) none).map
          (fun r => r.message) = .ok (some mSt) ∧
      (renderMessage (publishMsg (zeroBlock "send" [1, 2, 3, 4, 5, 6, 7, 8])) none).map
          (fun r => r.message) = .ok (some mSe) ∧
      lastN mSt 8 = [1, 2, 3, 4, 5, 6, 7, 8] ∧
      lastN mSe 8 = ([1, 2, 3, 4, 5, 6, 7, 8] : Bytes).reverse ∧
      lastN mSe 8 = (lastN mSt 8).reverse ∧
      (parseMessage mSt false).map parsedWork = .ok (some [1, 2, 3, 4, 5, 6, 7, 8]) ∧
      (parseMessage mSe false).map parsedWork = .ok (some [1, 2, 3, 4, 5, 6, 7, 8]) ∧
      ∀ t ∈ (["send", "receive", "open", "change"] : List String),
        ∃ m, (renderMessage (publishMsg (zeroBlock t [1, 2, 3, 4, 5, 6, 7, 8])) none).map
            (fun r => r.message) = .ok (some m) ∧
          lastN m 8 = ([1, 2, 3, 4, 5, 6, 7, 8] : Bytes).reverse ∧
          (parseMessage m false).map parsedWork = .ok (some [1, 2, 3, 4, 5, 6, 7, 8])) :=
  ⟨by decide, c8_work_endianness [1, 2, 3, 4, 5, 6, 7, 8] (by decide)⟩

/-- C9: bulk_pull rendering (code bug).  A body of 64 dash characters is
not 64 hexadecimal characters, yet rendering succeeds without
`invalid_account`: the character class of `HEX64CHAR_PATTERN =
/^[A-F-a-f0-9]{64}$/` contains the literal dash, and the hex decode of the
dashes is empty, so the resulting message is the bare 8-byte header rather
than a header plus a 64-byte repeated account range. -/
theorem c9_bulk_pull_dash_accepted :
    renderMessage { type := "bulk_pull", body := .str (String.mk (List.replicate 64 '-')) } none
      = .ok ⟨some [0x52, 0x43, 7, 7, 1, 6, 0, 0], none⟩ ∧
    hex64Test (String.mk (List.replicate 64 '-')) = true ∧
    (bufferFromHex (List.replicate 64 '-')).length = 0 :=
  ⟨by decide, by decide, by decide⟩

/-- C10: For recognized message types whose body matches no rendering
branch — `publish` with no body, `bulk_pull` with no body, `bulk_push`
with a non-Buffer body — `renderMessage` returns `message` undefined and
`hash` null without raising any error. -/
theorem c10_render_undefined_message :
    renderMessage { type := "publish" } none = .ok ⟨none, none⟩ ∧
    renderMessage { type := "bulk_pull" } none = .ok ⟨none, none⟩ ∧
    renderMessage { type := "bulk_push", body := .str "x" } none = .ok ⟨none, none⟩ :=
  ⟨by decide, by decide, by decide⟩

end Nano
